import Mathlib

/-
Verification of the NPHIES-AI healthcare middleware core (src/main.py):
the sliding-window rate limiter, the JWT token service, the auth guard for
WebSocket handshakes, the /chat SSE streaming generator, and the WebSocket
connection registry.  Timestamps, token expiries and progress fractions are
modelled as rationals; Python exceptions are modelled with Option/Bool
results; the per-key bucket dictionary is modelled as a function from keys
to buckets.
-/

namespace NphiesAI

/-- One call of `SimpleRateLimiter.hit` (src/main.py:115-123) on a single
bucket.  The code pops entries from the front while `now - bucket[0] >
window_seconds` (our `dropWhile`), then raises HTTP 429 when `limit <=
len(bucket)` (our `false`, returning the pruned bucket, since the prune has
already mutated the deque), else appends `now` and succeeds. -/
def hit (limit : ℕ) (window : ℚ) (bucket : List ℚ) (now : ℚ) : Bool × List ℚ :=
  let pruned := bucket.dropWhile (fun t => decide (window < now - t))
  if limit ≤ pruned.length then (false, pruned) else (true, pruned ++ [now])

/-- A sequence of `hit` calls on one key's bucket, returning the list of
per-call outcomes (`true` = admitted) and the final bucket.  The
`asyncio.Lock` in `SimpleRateLimiter.hit` makes each prune-check-append an
atomic unit, so any concurrent execution of the calls is one such
sequence. -/
def hitSeq (limit : ℕ) (window : ℚ) : List ℚ → List ℚ → List Bool × List ℚ
  | bucket, [] => ([], bucket)
  | bucket, t :: ts =>
    let r := hit limit window bucket t
    let rest := hitSeq limit window r.2 ts
    (r.1 :: rest.1, rest.2)

/-- `rate_limiter.hit(key)` on the whole `calls` dictionary, modelled as a
function from keys to buckets (`setdefault` giving a fresh empty bucket is
the function's default value `[]`). -/
def hitState (limit : ℕ) (window : ℚ) (st : String → List ℚ) (key : String)
    (now : ℚ) : Bool × (String → List ℚ) :=
  let r := hit limit window (st key) now
  (r.1, fun k => if k = key then r.2 else st k)

/-- The claim set of a JWT as `create_access_token` builds it: the data
dictionary `{"sub": ..., "scopes": ...}` plus the `exp` claim the function
adds.  `sub = none` models a payload without a subject claim. -/
structure Payload where
  sub : Option String
  scopes : List String
  exp : ℚ
deriving DecidableEq

/-- A structurally well-formed JWT: a payload plus its HMAC signature,
where the signature of the `python-jose` HS256 scheme is idealized as the
pair (signing secret, signed payload); verification recomputes it.  A
tampered token is one whose `payload` differs from `sigPayload`. -/
structure SignedToken where
  payload : Payload
  sigKey : String
  sigPayload : Payload
deriving DecidableEq

/-- What `decode_token` receives: either a string that does not parse as a
JWT at all, or a structurally well-formed token. -/
inductive TokenWire
  | malformed
  | token (t : SignedToken)
deriving DecidableEq

/-- `jose.jwt.encode(claims, secret, HS256)`, with the idealized MAC. -/
def jwtEncode (secret : String) (p : Payload) : SignedToken :=
  ⟨p, secret, p⟩

/-- `jose.jwt.decode(token, secret, [HS256])`: fails (raises `JWTError`,
modelled as `none`) on an unparseable token, a signature that does not
verify against `secret`, or an expired `exp` claim; a token is live only
while `now` is strictly before its expiry. -/
def jwtDecode (secret : String) (now : ℚ) (w : TokenWire) : Option Payload :=
  match w with
  | .malformed => none
  | .token t =>
    if t.sigKey = secret ∧ t.sigPayload = t.payload then
      if now < t.payload.exp then some t.payload else none
    else none

/-- `create_access_token({"sub": subject})` (src/main.py:71-75): copies the
data, adds `exp = now + ttl` and signs with the configured secret.  The
callers never pass scopes, so the scopes claim is absent (empty). -/
def create_access_token (secret : String) (now ttl : ℚ) (subject : String) :
    SignedToken :=
  jwtEncode secret ⟨some subject, [], now + ttl⟩

/-- `decode_token` (src/main.py:88-101): decodes and verifies the JWT,
raises the single 401 `credentials_exception` (modelled as `none`) on any
`JWTError` or when the `sub` claim is missing, else returns
`{"sub": subject, "scopes": payload.get("scopes", [])}`. -/
def decode_token (secret : String) (now : ℚ) (w : TokenWire) :
    Option (String × List String) :=
  match jwtDecode secret now w with
  | none => none
  | some p =>
    match p.sub with
    | none => none
    | some s => some (s, p.scopes)

/-- The environment-derived authentication configuration of src/main.py
(signing secret, service-account credentials, optional bcrypt hash with the
bcrypt verifier abstracted as a function, rate limit and window, token
TTL). -/
structure Env where
  secret : String
  serviceUsername : String
  servicePassword : String
  passwordHash : Option String
  bcryptVerify : String → String → Bool
  limit : ℕ
  window : ℚ
  ttl : ℚ

/-- `verify_password` (src/main.py:59-62): bcrypt verification when a hash
is configured, else a constant-time comparison with the plain service
password. -/
def verify_password (env : Env) (plain : String) : Bool :=
  match env.passwordHash with
  | some h => env.bcryptVerify plain h
  | none => plain = env.servicePassword

/-- `authenticate_user` (src/main.py:65-68). -/
def authenticate_user (env : Env) (username password : String) : Bool :=
  if username = env.serviceUsername then verify_password env password else false

/-- Result of `POST /auth/token` (src/main.py:235-247): HTTP 400 on bad
credentials, HTTP 429 from the rate limiter, or a bearer token. -/
inductive LoginResult
  | badCredentials
  | rateLimited
  | ok (t : SignedToken)
deriving DecidableEq

/-- `login_for_access_token` (src/main.py:235-247): authenticate first
(400 on failure, before the limiter is touched), then rate-limit keyed by
the username (falling back to the client address when the username is
falsy), then issue the token. -/
def login_for_access_token (env : Env) (st : String → List ℚ) (now : ℚ)
    (username password : String) (clientHost : Option String) :
    LoginResult × (String → List ℚ) :=
  if authenticate_user env username password then
    let key := if username = "" then clientHost.getD "anonymous" else username
    let r := hitState env.limit env.window st key now
    if r.1 then (.ok (create_access_token env.secret now env.ttl username), r.2)
    else (.rateLimited, r.2)
  else (.badCredentials, st)

/-- Outcome of the WebSocket admission handshake `secure_websocket`
(src/main.py:140-165): the socket is closed with a code, or accepted with
the authenticated identity. -/
inductive WsOutcome
  | closed (code : ℕ)
  | accepted (sub : String) (scopes : List String)
deriving DecidableEq

/-- `secure_websocket` (src/main.py:140-165): resolve the token from the
`token` query parameter, falling back to the `Authorization: Bearer`
header; close 4401 when no token is supplied or `decode_token` rejects it;
then consult the rate limiter keyed by the subject (falling back to the
client address when the subject is falsy) and close 4429 on rejection;
otherwise the identity is attached and the handshake succeeds.  The
returned state is the limiter's `calls` dictionary after the call. -/
def secure_websocket (env : Env) (st : String → List ℚ) (now : ℚ)
    (queryToken headerToken : Option TokenWire) (clientHost : Option String) :
    WsOutcome × (String → List ℚ) :=
  match queryToken.orElse (fun _ => headerToken) with
  | none => (.closed 4401, st)
  | some w =>
    match decode_token env.secret now w with
    | none => (.closed 4401, st)
    | some (sub, scopes) =>
      let key := if sub = "" then clientHost.getD "anonymous" else sub
      let r := hitState env.limit env.window st key now
      if r.1 then (.accepted sub scopes, r.2) else (.closed 4429, r.2)

/-- The effect of `websocket_chat` / `websocket_monitoring`
(src/main.py:768-776, 1389-1414) on the connection registry: when
`secure_websocket` raised (socket closed) the handler returns before
`manager.connect`, so the registry is untouched; only on success is the
connection accepted and appended. -/
def websocket_chat_connections (outcome : WsOutcome) (conns : List ℕ)
    (ws : ℕ) : List ℕ :=
  match outcome with
  | .closed _ => conns
  | .accepted _ _ => conns ++ [ws]

/-- `ConnectionManager.disconnect` (src/main.py:368-369):
`self.active_connections.remove(websocket)` removes the first occurrence
and raises `ValueError` (modelled as `none`) when the connection is
absent. -/
def disconnect (conns : List ℕ) (ws : ℕ) : Option (List ℕ) :=
  if ws ∈ conns then some (conns.erase ws) else none

/-- `ConnectionManager.broadcast` (src/main.py:374-376): iterate the
registered connections in order and `send_text` to each with no exception
handling; `send c = false` models a send that raises, which aborts the
loop.  Returns the connections that received the payload, and whether the
loop ran to completion. -/
def broadcast (send : ℕ → Bool) : List ℕ → List ℕ × Bool
  | [] => ([], true)
  | c :: cs =>
    if send c then
      let r := broadcast send cs
      (c :: r.1, r.2)
    else ([], false)

/-- Python's `str.isspace` test used by `str.split()` and `str.strip()`. -/
def isWS (c : Char) : Bool := c.isWhitespace

/-- Worker for `str.split()` over a character list: `acc` holds the
current word reversed. -/
def splitAux : List Char → List Char → List (List Char)
  | [], acc => if acc = [] then [] else [acc.reverse]
  | c :: cs, acc =>
    if isWS c then
      if acc = [] then splitAux cs [] else acc.reverse :: splitAux cs []
    else splitAux cs (c :: acc)

/-- `ai_response.split()` (src/main.py:740): the whitespace-separated words
of the text, with no empty words. -/
def pySplit (s : List Char) : List (List Char) := splitAux s []

/-- `" ".join(chunk)` (src/main.py:746). -/
def spaceJoin : List (List Char) → List Char
  | [] => []
  | [w] => w
  | w :: v :: ws => w ++ ' ' :: spaceJoin (v :: ws)

/-- `response_text.strip()` (src/main.py:747): drop leading and trailing
whitespace. -/
def pyStrip (s : List Char) : List Char :=
  ((s.dropWhile isWS).reverse.dropWhile isWS).reverse

/-- The number of iterations of `range(0, n, csize)` for `0 < csize`:
the ceiling of `n / csize`. -/
def chunkCount (n csize : ℕ) : ℕ := (n + csize - 1) / csize

/-- The body of the streaming loop of `chat_endpoint.generate_response`
(src/main.py:744-749), compiled with the trip count `k` of
`range(0, len(words), csize)` computed up front: at index `i` the next
`csize` words are joined and appended to the accumulated `response_text`
(plus a trailing space), and one `partial_response` payload is emitted
carrying `response_text.strip()` and `min((i + csize) / n, 1.0)`. -/
def chunkLoop (words : List (List Char)) (csize n : ℕ) :
    ℕ → ℕ → List Char → List (List Char × ℚ)
  | 0, _, _ => []
  | k + 1, i, acc =>
    let chunk := (words.drop i).take csize
    let acc' := acc ++ spaceJoin chunk ++ [' ']
    (pyStrip acc', min (((i : ℚ) + (csize : ℚ)) / (n : ℚ)) 1)
      :: chunkLoop words csize n k (i + csize) acc'

/-- `chunk_size = 10` (src/main.py:744). -/
def chunk_size : ℕ := 10

/-- All `partial_response` payloads (text, progress) emitted for a word
list. -/
def partialChunks (words : List (List Char)) (csize : ℕ) :
    List (List Char × ℚ) :=
  chunkLoop words csize words.length (chunkCount words.length csize) 0 []

/-- The typed server-sent events of the /chat session stream protocol
(src/main.py:726-755, spec section 4.4). -/
inductive Ev
  | session_start (sessionId language : String)
  | thinking (message : String)
  | partial_response (text : List Char) (progress : ℚ)
  | final_response (message : List Char) (confidence : ℚ)
      (language contextTag : String)
  | session_end (sessionId : String)
  | error (message : String)
deriving DecidableEq

def Ev.isStart : Ev → Bool
  | .session_start _ _ => true
  | _ => false

def Ev.isPartial : Ev → Bool
  | .partial_response _ _ => true
  | _ => false

def Ev.isFinal : Ev → Bool
  | .final_response _ _ _ _ => true
  | _ => false

def Ev.isSessionEnd : Ev → Bool
  | .session_end _ => true
  | _ => false

def Ev.isError : Ev → Bool
  | .error _ => true
  | _ => false

/-- `chat_endpoint.generate_response` (src/main.py:726-755) on the success
path: `session_start`, a `thinking` event, the chunked `partial_response`
events over `ai_response.split()` with chunk size 10, then the
`final_response` (confidence 0.95, context "healthcare") and the
`session_end`. -/
def generate_response (sessionId language : String) (ai_response : List Char) :
    List Ev :=
  [Ev.session_start sessionId language,
   Ev.thinking "Analyzing your healthcare query..."]
  ++ (partialChunks (pySplit ai_response) chunk_size).map
      (fun e => Ev.partial_response e.1 e.2)
  ++ [Ev.final_response ai_response (95 / 100) language "healthcare",
      Ev.session_end sessionId]

/-- The /chat stream observed when the generator raises after emitting
`failAfter` frames: `generate_response` has no exception handler, so the
exception propagates out of the generator, the `StreamingResponse` ends,
and no further frame of any kind is sent. -/
def generate_response_failing (sessionId language : String)
    (ai_response : List Char) (failAfter : ℕ) : List Ev :=
  (generate_response sessionId language ai_response).take failAfter

end NphiesAI

namespace NphiesAI

theorem dropWhile_eq_self_of_forall {p : ℚ → Bool} {l : List ℚ}
    (h : ∀ a ∈ l, p a = false) : l.dropWhile p = l := by
  cases l with
  | nil => rfl
  | cons a l =>
    have ha : p a = false := h a (List.mem_cons_self a l)
    simp [List.dropWhile, ha]

/-- On a bucket sorted oldest-first, the front-prune loop of `hit` removes
exactly the timestamps older than `now - window`. -/
theorem dropWhile_eq_filter_of_sorted {W now : ℚ} {l : List ℚ}
    (h : l.Sorted (· ≤ ·)) :
    l.dropWhile (fun t => decide (W < now - t))
      = l.filter (fun t => decide (now - t ≤ W)) := by
  induction l with
  | nil => rfl
  | cons a l ih =>
    rcases List.sorted_cons.mp h with ⟨ha, hl⟩
    by_cases hpa : W < now - a
    · have h2 : ¬ (now - a ≤ W) := not_le.mpr hpa
      simp only [List.dropWhile_cons, List.filter_cons, decide_eq_true_eq,
        if_pos hpa, if_neg h2]
      exact ih hl
    · push_neg at hpa
      have h1 : ¬ (W < now - a) := not_lt.mpr hpa
      simp only [List.dropWhile_cons, List.filter_cons, decide_eq_true_eq,
        if_neg h1, if_pos hpa]
      have hall : ∀ t ∈ l, (fun t => decide (now - t ≤ W)) t = true := by
        intro t ht
        have hat := ha t ht
        simp only [decide_eq_true_eq]
        linarith
      rw [List.filter_eq_self.mpr hall]

/-- Closed form of a run of `hit` calls when every time involved is within
one `W`-second span of every other: the prune never removes anything, the
first `limit - bucket.length` calls are admitted, the rest are rejected,
and the final bucket holds the admitted times in order. -/
theorem hitSeq_closed (L : ℕ) (W : ℚ) :
    ∀ (ts b : List ℚ),
      (∀ t ∈ ts, ∀ u ∈ b, ¬ (W < t - u)) →
      (∀ t ∈ ts, ∀ u ∈ ts, ¬ (W < t - u)) →
      hitSeq L W b ts
        = (List.replicate (min ts.length (L - b.length)) true
            ++ List.replicate (ts.length - (L - b.length)) false,
           b ++ ts.take (L - b.length)) := by
  intro ts
  induction ts with
  | nil => intro b _ _; simp [hitSeq]
  | cons t ts ih =>
    intro b hb hts
    have hprune : b.dropWhile (fun u => decide (W < t - u)) = b := by
      refine dropWhile_eq_self_of_forall ?_
      intro u hu
      simpa using hb t (List.mem_cons_self t ts) u hu
    have hb' : ∀ t' ∈ ts, ∀ u ∈ b, ¬ (W < t' - u) := fun t' ht' u hu =>
      hb t' (List.mem_cons_of_mem t ht') u hu
    have hts' : ∀ t' ∈ ts, ∀ u ∈ ts, ¬ (W < t' - u) := fun t' ht' u hu =>
      hts t' (List.mem_cons_of_mem t ht') u (List.mem_cons_of_mem t hu)
    by_cases hfull : L ≤ b.length
    · have hz : L - b.length = 0 := Nat.sub_eq_zero_of_le hfull
      have hstep : hit L W b t = (false, b) := by
        simp [hit, hprune, hfull]
      have ihb := ih b hb' hts'
      simp only [hitSeq, hstep, ihb, hz]
      simp [List.replicate_succ]
    · push_neg at hfull
      have hstep : hit L W b t = (true, b ++ [t]) := by
        simp [hit, hprune, Nat.not_le.mpr hfull]
      have hbt : ∀ t' ∈ ts, ∀ u ∈ b ++ [t], ¬ (W < t' - u) := by
        intro t' ht' u hu
        rcases List.mem_append.mp hu with hu | hu
        · exact hb t' (List.mem_cons_of_mem t ht') u hu
        · have hut : u = t := by simpa using hu
          rw [hut]
          exact hts t' (List.mem_cons_of_mem t ht') t (List.mem_cons_self t ts)
      have ihb := ih (b ++ [t]) hbt hts'
      obtain ⟨m, hm⟩ : ∃ m, L - b.length = m + 1 := ⟨L - b.length - 1, by omega⟩
      have hlen : (b ++ [t]).length = b.length + 1 := by simp
      have hsub : L - (b.length + 1) = m := by omega
      simp only [hitSeq, hstep, ihb, hlen, hsub, hm, List.length_cons,
        Nat.succ_min_succ, Nat.succ_sub_succ, List.replicate_succ,
        List.take_succ_cons, Prod.mk.injEq]
      constructor
      · simp
      · simp

/-- Claim C1: on each `hit` call the bucket is first pruned of all
timestamps older than `now - window` (on a sorted bucket the front-prune
loop equals that filter), the call is rejected leaving the pruned bucket
unappended when the remaining count reaches the limit, and `now` is
appended otherwise; consequently `L` admissions within one `W`-second span
all succeed, an `(L+1)`-th call within the same span is rejected, and once
time advances past `W` from the oldest admitted call one more call is
admitted. -/
theorem C1_rate_limiter_sliding_window
    (L : ℕ) (W now t t' : ℚ) (b ts : List ℚ)
    (hb : b.Sorted (· ≤ ·))
    (hlen : ts.length = L)
    (hspan : ∀ a ∈ ts, ∀ c ∈ ts, a - c ≤ W)
    (hne : ts ≠ [])
    (ht : ∀ c ∈ ts, t - c ≤ W)
    (ht' : W < t' - ts.head hne) :
    (hit L W b now
        = (if L ≤ (b.filter (fun u => decide (now - u ≤ W))).length
             then (false, b.filter (fun u => decide (now - u ≤ W)))
             else (true, b.filter (fun u => decide (now - u ≤ W)) ++ [now])))
      ∧ hitSeq L W [] ts = (List.replicate L true, ts)
      ∧ hit L W ts t = (false, ts)
      ∧ (hit L W ts t').1 = true := by
  refine ⟨?_, ?_, ?_, ?_⟩
  · simp only [hit, dropWhile_eq_filter_of_sorted hb]
  · have h := hitSeq_closed L W ts []
      (by intro a _ u hu; simp at hu)
      (fun a ha c hc => not_lt.mpr (hspan a ha c hc))
    rw [← hlen] at h ⊢
    simpa [List.take_length] using h
  · have hprune : ts.dropWhile (fun u => decide (W < t - u)) = ts :=
      dropWhile_eq_self_of_forall
        (fun u hu => by simpa using not_lt.mpr (ht u hu))
    simp [hit, hprune, hlen]
  · obtain ⟨a, rest, hcons⟩ := List.exists_cons_of_ne_nil hne
    subst hcons
    have hpa : (fun u => decide (W < t' - u)) a = true := by
      simp only [decide_eq_true_eq]
      simpa using ht'
    have hdrop : (a :: rest).dropWhile (fun u => decide (W < t' - u))
        = rest.dropWhile (fun u => decide (W < t' - u)) := by
      simp only [List.dropWhile_cons, hpa]
      simp
    have hshort : (rest.dropWhile (fun u => decide (W < t' - u))).length
        ≤ rest.length := (List.dropWhile_suffix _).length_le
    have hlt : (rest.dropWhile (fun u => decide (W < t' - u))).length < L := by
      have : rest.length + 1 = L := by simpa using hlen
      omega
    simp [hit, hdrop, Nat.not_le.mpr hlt]

/-- Witness for C1 at limit 2, window 10, sorted bucket `[1, 2]`,
admissions at times 1 and 2, a rejected third call at time 3 and an
admitted call at time 12. -/
theorem C1_rate_limiter_sliding_window_witness :
    (hit 2 10 [(1 : ℚ), 2] 5
        = (if 2 ≤ ([(1 : ℚ), 2].filter (fun u => decide ((5 : ℚ) - u ≤ 10))).length
             then (false, [(1 : ℚ), 2].filter (fun u => decide ((5 : ℚ) - u ≤ 10)))
             else (true, [(1 : ℚ), 2].filter (fun u => decide ((5 : ℚ) - u ≤ 10)) ++ [5])))
      ∧ hitSeq 2 10 [] [(1 : ℚ), 2] = (List.replicate 2 true, [(1 : ℚ), 2])
      ∧ hit 2 10 [(1 : ℚ), 2] 3 = (false, [(1 : ℚ), 2])
      ∧ (hit 2 10 [(1 : ℚ), 2] 12).1 = true :=
  C1_rate_limiter_sliding_window 2 10 5 3 12 [1, 2] [1, 2]
    (by norm_num [List.sorted_cons]) rfl
    (by norm_num [List.forall_mem_cons]) (by simp)
    (by norm_num [List.forall_mem_cons]) (by norm_num)

/-- Claim C9: `K` admit calls for one key within a single window with
`limit = L < K` yield exactly `L` successes and `K - L` RateLimited
failures.  Each `hit` holds the limiter's `asyncio.Lock` around its whole
prune-check-append, so any concurrent interleaving of the `K` calls
executes as some sequence `ts` of atomic `hit`s; the list `ts` below ranges
over every such serialization (in particular over every arrival order of
the captured timestamps). -/
theorem C9_concurrent_admission
    (L : ℕ) (W : ℚ) (ts : List ℚ)
    (hspan : ∀ a ∈ ts, ∀ c ∈ ts, a - c ≤ W)
    (hK : L < ts.length) :
    hitSeq L W [] ts
        = (List.replicate L true ++ List.replicate (ts.length - L) false,
           ts.take L)
      ∧ (hitSeq L W [] ts).1.count true = L
      ∧ (hitSeq L W [] ts).1.count false = ts.length - L := by
  have h := hitSeq_closed L W ts []
    (by intro a _ u hu; simp at hu)
    (fun a ha c hc => not_lt.mpr (hspan a ha c hc))
  have hmin : min ts.length L = L := Nat.min_eq_right (le_of_lt hK)
  simp only [List.length_nil, Nat.sub_zero, List.nil_append, hmin] at h
  refine ⟨h, ?_, ?_⟩
  · rw [h]
    simp [List.count_replicate]
  · rw [h]
    simp [List.count_replicate]

theorem splitAux_good :
    ∀ (s acc : List Char), (∀ c ∈ acc, isWS c = false) →
      ∀ w ∈ splitAux s acc, w ≠ [] ∧ ∀ c ∈ w, isWS c = false := by
  intro s
  induction s with
  | nil =>
    intro acc hacc w hw
    by_cases hempty : acc = []
    · simp [splitAux, hempty] at hw
    · simp only [splitAux, if_neg hempty, List.mem_singleton] at hw
      subst hw
      refine ⟨by simpa using hempty, ?_⟩
      intro c hc
      exact hacc c (List.mem_reverse.mp hc)
  | cons a s ih =>
    intro acc hacc w hw
    by_cases hws : isWS a = true
    · by_cases hempty : acc = []
      · simp [splitAux, hws, hempty] at hw
        exact ih [] (by simp) w hw
      · simp [splitAux, hws, hempty] at hw
        rcases hw with hw | hw
        · subst hw
          refine ⟨by simpa using hempty, ?_⟩
          intro c hc
          exact hacc c (List.mem_reverse.mp hc)
        · exact ih [] (by simp) w hw
    · have hws' : isWS a = false := by simpa using hws
      simp only [splitAux, hws'] at hw
      refine ih (a :: acc) ?_ w hw
      intro c hc
      rcases List.mem_cons.mp hc with hc | hc
      · subst hc; exact hws'
      · exact hacc c hc

/-- The words `str.split()` produces are non-empty and contain no
whitespace. -/
theorem pySplit_good (s : List Char) :
    ∀ w ∈ pySplit s, w ≠ [] ∧ ∀ c ∈ w, isWS c = false :=
  splitAux_good s [] (by simp)

theorem spaceJoin_append :
    ∀ (xs ys : List (List Char)), xs ≠ [] → ys ≠ [] →
      spaceJoin (xs ++ ys) = spaceJoin xs ++ ' ' :: spaceJoin ys := by
  intro xs
  induction xs with
  | nil => intro ys h _; exact absurd rfl h
  | cons x xs ih =>
    intro ys _ hys
    cases xs with
    | nil =>
      cases ys with
      | nil => exact absurd rfl hys
      | cons y ys' => simp [spaceJoin]
    | cons x2 xs' =>
      have htail := ih ys (by simp) hys
      have hstep : spaceJoin ((x :: x2 :: xs') ++ ys)
          = x ++ ' ' :: spaceJoin ((x2 :: xs') ++ ys) := rfl
      have hstep2 : spaceJoin (x :: x2 :: xs')
          = x ++ ' ' :: spaceJoin (x2 :: xs') := rfl
      rw [hstep, htail, hstep2]
      simp

theorem spaceJoin_head :
    ∀ (ws : List (List Char)), (∀ w ∈ ws, w ≠ [] ∧ ∀ c ∈ w, isWS c = false) →
      ws ≠ [] → ∃ c rest, spaceJoin ws = c :: rest ∧ isWS c = false := by
  intro ws hgood hne
  cases ws with
  | nil => exact absurd rfl hne
  | cons w ws' =>
    obtain ⟨hwne, hwchars⟩ := hgood w (List.mem_cons_self w ws')
    cases hw : w with
    | nil => exact absurd hw hwne
    | cons c w' =>
      have hc : isWS c = false := hwchars c (by rw [hw]; exact List.mem_cons_self c w')
      cases ws' with
      | nil => exact ⟨c, w', by simp [spaceJoin, hw], hc⟩
      | cons v vs =>
        refine ⟨c, w' ++ ' ' :: spaceJoin (v :: vs), ?_, hc⟩
        simp [spaceJoin, hw]

theorem spaceJoin_last :
    ∀ (ws : List (List Char)), (∀ w ∈ ws, w ≠ [] ∧ ∀ c ∈ w, isWS c = false) →
      ws ≠ [] → ∃ front c, spaceJoin ws = front ++ [c] ∧ isWS c = false := by
  intro ws
  induction ws with
  | nil => intro _ hne; exact absurd rfl hne
  | cons w ws' ih =>
    intro hgood _
    cases ws' with
    | nil =>
      obtain ⟨hwne, hwchars⟩ := hgood w (List.mem_cons_self w [])
      obtain ⟨front, c, hw⟩ :
          ∃ front c, w = front ++ [c] := by
        cases hconc : w.reverse with
        | nil => exact absurd (by simpa using congrArg List.reverse hconc) hwne
        | cons c front =>
          exact ⟨front.reverse, c, by
            have := congrArg List.reverse hconc
            simpa using this⟩
      refine ⟨front, c, by simp [spaceJoin, hw], ?_⟩
      exact hwchars c (by rw [hw]; simp)
    | cons v vs =>
      have hgood' : ∀ u ∈ v :: vs, u ≠ [] ∧ ∀ c ∈ u, isWS c = false :=
        fun u hu => hgood u (List.mem_cons_of_mem w hu)
      obtain ⟨front, c, hjoin, hc⟩ := ih hgood' (by simp)
      refine ⟨w ++ ' ' :: front, c, ?_, hc⟩
      simp [spaceJoin, hjoin]

/-- Stripping the accumulated `response_text` (which ends in the space the
loop appends) yields exactly the joined words emitted so far. -/
theorem pyStrip_spaceJoin (ws : List (List Char))
    (hgood : ∀ w ∈ ws, w ≠ [] ∧ ∀ c ∈ w, isWS c = false) (hne : ws ≠ []) :
    pyStrip (spaceJoin ws ++ [' ']) = spaceJoin ws := by
  obtain ⟨c0, rest, hhead, hc0⟩ := spaceJoin_head ws hgood hne
  obtain ⟨front, cl, hlast, hcl⟩ := spaceJoin_last ws hgood hne
  have hstep1 : (spaceJoin ws ++ [' ']).dropWhile isWS = spaceJoin ws ++ [' '] := by
    rw [hhead]
    simp [List.dropWhile_cons, hc0]
  have hrev : (spaceJoin ws ++ [' ']).reverse = ' ' :: (spaceJoin ws).reverse := by
    simp
  have hrev2 : (spaceJoin ws).reverse = cl :: front.reverse := by
    rw [hlast]; simp
  have hstep2 : (' ' :: (spaceJoin ws).reverse).dropWhile isWS
      = (spaceJoin ws).reverse := by
    have hsp : isWS ' ' = true := by decide
    rw [List.dropWhile_cons_of_pos hsp, hrev2]
    simp [List.dropWhile_cons, hcl]
  unfold pyStrip
  rw [hstep1, hrev, hstep2]
  simp

theorem chunkCount_bound (n c : ℕ) (hc : 0 < c) :
    ∀ j < chunkCount n c, j * c < n := by
  intro j hj
  have h1 : (j + 1) * c ≤ chunkCount n c * c :=
    Nat.mul_le_mul_right c hj
  have h2 : chunkCount n c * c ≤ n + c - 1 := Nat.div_mul_le_self _ _
  have h3 : (j + 1) * c = j * c + c := Nat.succ_mul j c
  omega

theorem le_chunkCount_mul (n c : ℕ) (hc : 0 < c) :
    n ≤ chunkCount n c * c := by
  show n ≤ (n + c - 1) / c * c
  have hdm := Nat.div_add_mod (n + c - 1) c
  have hmod := Nat.mod_lt (n + c - 1) hc
  have hcomm : c * ((n + c - 1) / c) = (n + c - 1) / c * c := Nat.mul_comm _ _
  omega

theorem one_le_chunkCount (n c : ℕ) (hc : 0 < c) (hn : 1 ≤ n) :
    1 ≤ chunkCount n c := by
  have h := le_chunkCount_mul n c hc
  rcases Nat.eq_zero_or_pos (chunkCount n c) with h0 | h0
  · rw [h0] at h; simp at h; omega
  · exact h0

/-- `range(0, n, c)` has `ceil(n / c)` iterations. -/
theorem chunkCount_eq_ceil (n c : ℕ) (hc : 0 < c) :
    chunkCount n c = Nat.ceil ((n : ℚ) / (c : ℚ)) := by
  rcases Nat.eq_zero_or_pos n with hn | hn
  · subst hn
    have : chunkCount 0 c = 0 := by
      have : c - 1 < c := by omega
      simp [chunkCount, Nat.div_eq_of_lt this]
    rw [this]
    simp
  · have hK1 := one_le_chunkCount n c hc hn
    have hcq : (0 : ℚ) < (c : ℚ) := by exact_mod_cast hc
    symm
    rw [Nat.ceil_eq_iff (by omega : chunkCount n c ≠ 0)]
    constructor
    · have hb := chunkCount_bound n c hc (chunkCount n c - 1) (by omega)
      rw [lt_div_iff₀ hcq]
      exact_mod_cast hb
    · rw [div_le_iff₀ hcq]
      exact_mod_cast le_chunkCount_mul n c hc

/-- Closed form of the /chat streaming loop: starting at word index `i`
with the accumulated `response_text` for the first `i` words, the loop
emits one event per remaining chunk, the `j`-th carrying the join of the
first `i + j*C + C` words (all words emitted so far) and progress
`min((i + j*C + C) / N, 1)`. -/
theorem chunkLoop_eq (words : List (List Char)) (C N : ℕ) (hC : 0 < C)
    (hN : N = words.length)
    (hgood : ∀ w ∈ words, w ≠ [] ∧ ∀ c ∈ w, isWS c = false) :
    ∀ (k i : ℕ) (acc : List Char),
      (∀ j, j < k → i + j * C < N) →
      (acc = if i = 0 then [] else spaceJoin (words.take i) ++ [' ']) →
      chunkLoop words C N k i acc
        = (List.range k).map (fun j =>
            (spaceJoin (words.take (i + j * C + C)),
             min (((i + j * C + C : ℕ) : ℚ) / (N : ℚ)) 1)) := by
  intro k
  induction k with
  | zero => intro i acc _ _; simp [chunkLoop]
  | succ k ih =>
    intro i acc hbound hacc
    have hiN : i < N := by simpa using hbound 0 (Nat.succ_pos k)
    have hlenpos : 0 < words.length := by omega
    have hwordsne : words ≠ [] := by
      intro h; rw [h] at hlenpos; simp at hlenpos
    have hdropne : words.drop i ≠ [] := by
      intro h
      have := List.drop_eq_nil_iff.mp h
      omega
    have hchunkne : (words.drop i).take C ≠ [] := by
      cases hdrop : words.drop i with
      | nil => exact absurd hdrop hdropne
      | cons a l =>
        cases hcc : C with
        | zero => omega
        | succ c => simp [List.take_succ_cons]
    have htake_add : words.take (i + C) = words.take i ++ (words.drop i).take C :=
      List.take_add ..
    have htakene : words.take (i + C) ≠ [] := by
      rw [htake_add]
      intro h
      rcases List.append_eq_nil.mp h with ⟨_, h2⟩
      exact hchunkne h2
    have hgoodtake : ∀ n, ∀ w ∈ words.take n, w ≠ [] ∧ ∀ c ∈ w, isWS c = false :=
      fun n w hw => hgood w (List.take_subset n words hw)
    have hacc' : acc ++ spaceJoin ((words.drop i).take C) ++ [' ']
        = spaceJoin (words.take (i + C)) ++ [' '] := by
      by_cases hi0 : i = 0
      · subst hi0
        rw [hacc]
        simp only [if_pos rfl, List.nil_append]
        rw [htake_add]
        simp
      · rw [hacc, if_neg hi0]
        have htine : words.take i ≠ [] := by
          intro h
          rcases List.take_eq_nil_iff.mp h with h | h
          · exact hi0 h
          · exact hwordsne h
        rw [htake_add, spaceJoin_append (words.take i) ((words.drop i).take C)
          htine hchunkne]
        simp
    have htext : pyStrip (acc ++ spaceJoin ((words.drop i).take C) ++ [' '])
        = spaceJoin (words.take (i + C)) := by
      rw [hacc']
      exact pyStrip_spaceJoin _ (hgoodtake (i + C)) htakene
    have hbound' : ∀ j, j < k → (i + C) + j * C < N := by
      intro j hj
      have := hbound (j + 1) (by omega)
      have hexp : i + (j + 1) * C = i + C + j * C := by ring
      omega
    have hacc2 : acc ++ spaceJoin ((words.drop i).take C) ++ [' ']
        = (if i + C = 0 then [] else spaceJoin (words.take (i + C)) ++ [' ']) := by
      rw [if_neg (by omega)]
      exact hacc'
    have hrec := ih (i + C) _ hbound' hacc2
    have hunfold : chunkLoop words C N (k + 1) i acc
        = (pyStrip (acc ++ spaceJoin ((words.drop i).take C) ++ [' ']),
           min (((i : ℚ) + (C : ℚ)) / (N : ℚ)) 1)
          :: chunkLoop words C N k (i + C)
              (acc ++ spaceJoin ((words.drop i).take C) ++ [' ']) := by
      simp [chunkLoop]
    rw [hunfold, htext, hrec, List.range_succ_eq_map, List.map_cons, List.map_map]
    congr 1
    · have h0 : i + 0 * C + C = i + C := by ring
      rw [h0]
      have hcast : ((i + C : ℕ) : ℚ) = (i : ℚ) + (C : ℚ) := by push_cast; ring
      rw [hcast]
    · congr 1
      funext j
      simp only [Function.comp, Nat.succ_eq_add_one]
      have hj : i + (j + 1) * C + C = i + C + j * C + C := by ring
      rw [hj]

/-- Closed form of all emitted `partial_response` payloads: one event per
chunk, the `j`-th carrying the join of the first `j*C + C` words and
progress `min((j*C + C) / N, 1)`. -/
theorem partialChunks_eq (words : List (List Char)) (C : ℕ) (hC : 0 < C)
    (hgood : ∀ w ∈ words, w ≠ [] ∧ ∀ c ∈ w, isWS c = false) :
    partialChunks words C
      = (List.range (chunkCount words.length C)).map (fun j =>
          (spaceJoin (words.take (j * C + C)),
           min (((j * C + C : ℕ) : ℚ) / (words.length : ℚ)) 1)) := by
  have h := chunkLoop_eq words C words.length hC rfl hgood
    (chunkCount words.length C) 0 []
    (fun j hj => by simpa using chunkCount_bound words.length C hC j hj)
    (by simp)
  refine h.trans ?_
  congr 1
  funext j
  simp

theorem chain_of_mono (f : ℕ → ℚ) (hf : ∀ m, f m ≤ f (m + 1)) (n : ℕ) :
    List.Chain' (· ≤ ·) ((List.range n).map f) := by
  rw [List.chain'_map]
  cases n with
  | zero => simp
  | succ m =>
    exact (List.chain'_range_succ (fun a b => f a ≤ f b) m).mpr
      (fun j _ => hf j)

/-- Claim C3: for a generated response of `N >= 1` words streamed with
chunk size `C > 0`, there are exactly `ceil(N / C)` partial_response
events, the `j`-th carries the concatenation of all words emitted so far
(the first `j*C + C` words, space-joined), the progress values are
non-decreasing, and the final progress value is exactly 1. -/
theorem C3_partial_stream (ai : List Char) (C : ℕ) (hC : 0 < C)
    (hN : 1 ≤ (pySplit ai).length) :
    (partialChunks (pySplit ai) C).length
        = Nat.ceil (((pySplit ai).length : ℚ) / (C : ℚ))
      ∧ partialChunks (pySplit ai) C
          = (List.range (chunkCount (pySplit ai).length C)).map (fun j =>
              (spaceJoin ((pySplit ai).take (j * C + C)),
               min (((j * C + C : ℕ) : ℚ) / ((pySplit ai).length : ℚ)) 1))
      ∧ List.Chain' (· ≤ ·)
          ((partialChunks (pySplit ai) C).map (fun e => e.2))
      ∧ ((partialChunks (pySplit ai) C).map (fun e => e.2)).getLast?
          = some 1 := by
  have hgood := pySplit_good ai
  have heq := partialChunks_eq (pySplit ai) C hC hgood
  have hKpos : 1 ≤ chunkCount (pySplit ai).length C :=
    one_le_chunkCount _ _ hC hN
  have hNpos : (0 : ℚ) < ((pySplit ai).length : ℚ) := by exact_mod_cast hN
  have hmap : ((partialChunks (pySplit ai) C).map (fun e => e.2))
      = (List.range (chunkCount (pySplit ai).length C)).map
          (fun j => min (((j * C + C : ℕ) : ℚ) / ((pySplit ai).length : ℚ)) 1) := by
    rw [heq, List.map_map]
    rfl
  refine ⟨?_, heq, ?_, ?_⟩
  · rw [heq, List.length_map, List.length_range, chunkCount_eq_ceil _ _ hC]
  · rw [hmap]
    apply chain_of_mono
    intro m
    have hle : m * C + C ≤ (m + 1) * C + C :=
      Nat.add_le_add_right (Nat.mul_le_mul_right C (Nat.le_succ m)) C
    have hleq : ((m * C + C : ℕ) : ℚ) ≤ (((m + 1) * C + C : ℕ) : ℚ) := by
      exact_mod_cast hle
    exact min_le_min (by gcongr) le_rfl
  · rw [hmap]
    obtain ⟨m, hm⟩ : ∃ m, chunkCount (pySplit ai).length C = m + 1 :=
      ⟨chunkCount (pySplit ai).length C - 1, by omega⟩
    rw [hm, List.range_succ, List.map_append]
    simp only [List.map_cons, List.map_nil]
    rw [List.getLast?_concat]
    have hge : ((pySplit ai).length : ℚ) ≤ ((m * C + C : ℕ) : ℚ) := by
      have hnat : (pySplit ai).length ≤ m * C + C := by
        have := le_chunkCount_mul (pySplit ai).length C hC
        rw [hm, Nat.succ_mul] at this
        exact this
      exact_mod_cast hnat
    have h1 : (1 : ℚ) ≤ ((m * C + C : ℕ) : ℚ) / ((pySplit ai).length : ℚ) :=
      (one_le_div hNpos).mpr hge
    rw [min_eq_right h1]

/-- Witness for C3: the three-word response "a b c" streamed with chunk
size 2 gives two events with progress 2/3 then 1. -/
theorem C3_partial_stream_witness :
    (partialChunks (pySplit ['a', ' ', 'b', ' ', 'c']) 2).length
        = Nat.ceil (((pySplit ['a', ' ', 'b', ' ', 'c']).length : ℚ) / (2 : ℚ))
      ∧ partialChunks (pySplit ['a', ' ', 'b', ' ', 'c']) 2
          = (List.range (chunkCount (pySplit ['a', ' ', 'b', ' ', 'c']).length 2)).map
              (fun j =>
              (spaceJoin ((pySplit ['a', ' ', 'b', ' ', 'c']).take (j * 2 + 2)),
               min (((j * 2 + 2 : ℕ) : ℚ)
                  / ((pySplit ['a', ' ', 'b', ' ', 'c']).length : ℚ)) 1))
      ∧ List.Chain' (· ≤ ·)
          ((partialChunks (pySplit ['a', ' ', 'b', ' ', 'c']) 2).map (fun e => e.2))
      ∧ ((partialChunks (pySplit ['a', ' ', 'b', ' ', 'c']) 2).map (fun e => e.2)).getLast?
          = some 1 :=
  C3_partial_stream ['a', ' ', 'b', ' ', 'c'] 2 (by norm_num) (by decide)

theorem countP_partial_map (p : Ev → Bool)
    (hp : ∀ t q, p (Ev.partial_response t q) = false)
    (l : List (List Char × ℚ)) :
    (l.map (fun e => Ev.partial_response e.1 e.2)).countP p = 0 := by
  rw [List.countP_map]
  apply List.countP_eq_zero.mpr
  intro a _
  simp [Function.comp, hp]

theorem generate_response_split (sid lang : String) (ai : List Char) :
    generate_response sid lang ai
      = ([Ev.session_start sid lang,
          Ev.thinking "Analyzing your healthcare query..."]
          ++ (partialChunks (pySplit ai) chunk_size).map
              (fun e => Ev.partial_response e.1 e.2)
          ++ [Ev.final_response ai (95 / 100) lang "healthcare"])
        ++ [Ev.session_end sid] := by
  simp [generate_response]

theorem generate_response_prefix_counts (sid lang : String) (ai : List Char) :
    ([Ev.session_start sid lang,
      Ev.thinking "Analyzing your healthcare query..."]
      ++ (partialChunks (pySplit ai) chunk_size).map
          (fun e => Ev.partial_response e.1 e.2)
      ++ [Ev.final_response ai (95 / 100) lang "healthcare"]).countP
        Ev.isSessionEnd = 0
    ∧ ([Ev.session_start sid lang,
        Ev.thinking "Analyzing your healthcare query..."]
        ++ (partialChunks (pySplit ai) chunk_size).map
            (fun e => Ev.partial_response e.1 e.2)).countP Ev.isFinal = 0
    ∧ (generate_response sid lang ai).countP Ev.isError = 0 := by
  have hend : ((partialChunks (pySplit ai) chunk_size).map
      (fun e => Ev.partial_response e.1 e.2)).countP Ev.isSessionEnd = 0 :=
    countP_partial_map _ (fun _ _ => rfl) _
  have hfin : ((partialChunks (pySplit ai) chunk_size).map
      (fun e => Ev.partial_response e.1 e.2)).countP Ev.isFinal = 0 :=
    countP_partial_map _ (fun _ _ => rfl) _
  have herr : ((partialChunks (pySplit ai) chunk_size).map
      (fun e => Ev.partial_response e.1 e.2)).countP Ev.isError = 0 :=
    countP_partial_map _ (fun _ _ => rfl) _
  refine ⟨?_, ?_, ?_⟩
  · simp [List.countP_append, List.countP_cons, hend, Ev.isSessionEnd]
  · simp [List.countP_append, List.countP_cons, hfin, Ev.isFinal]
  · simp [generate_response, List.countP_append, List.countP_cons, herr,
      Ev.isError]

/-- Claim C4: on the success path the first event is `session_start`, the
stream contains exactly one `final_response` and exactly one
`session_end`, the `session_end` is the last event and immediately follows
the `final_response`, and no event of any kind follows it. -/
theorem C4_stream_termination (sid lang : String) (ai : List Char) :
    (generate_response sid lang ai).head? = some (.session_start sid lang)
      ∧ (generate_response sid lang ai).countP Ev.isFinal = 1
      ∧ (generate_response sid lang ai).countP Ev.isSessionEnd = 1
      ∧ (generate_response sid lang ai).getLast? = some (.session_end sid)
      ∧ ∃ pre, generate_response sid lang ai
            = pre ++ [Ev.final_response ai (95 / 100) lang "healthcare",
                      Ev.session_end sid]
          ∧ pre.countP Ev.isFinal = 0 ∧ pre.countP Ev.isSessionEnd = 0 := by
  obtain ⟨hpre_end, hpre_fin, _⟩ := generate_response_prefix_counts sid lang ai
  have hsplit := generate_response_split sid lang ai
  refine ⟨rfl, ?_, ?_, ?_, ?_⟩
  · rw [hsplit]
    simp only [List.countP_append, List.countP_cons] at hpre_fin ⊢
    simp [Ev.isFinal] at hpre_fin ⊢
  · rw [hsplit]
    simp only [List.countP_append, List.countP_cons] at hpre_end ⊢
    simp [Ev.isSessionEnd] at hpre_end ⊢
  · rw [hsplit, List.getLast?_concat]
  · refine ⟨[Ev.session_start sid lang,
      Ev.thinking "Analyzing your healthcare query..."]
      ++ (partialChunks (pySplit ai) chunk_size).map
          (fun e => Ev.partial_response e.1 e.2), ?_, ?_, ?_⟩
    · rw [hsplit]
      simp
    · exact hpre_fin
    · simp only [List.countP_append, List.countP_cons] at hpre_end ⊢
      simp [Ev.isSessionEnd] at hpre_end ⊢

/-- Claim C5 is false on the code: the /chat generator has no exception
handler and never emits an `error` event; when it raises mid-stream (here:
after 3 of the 5 events of a two-word response) the observed stream simply
ends, with no error event at all. -/
theorem C5_no_error_event_counterexample :
    (generate_response_failing "s1" "en"
        ['H', 'i', ' ', 't', 'h', 'e', 'r', 'e'] 3).countP Ev.isError = 0
      ∧ 3 < (generate_response "s1" "en"
          ['H', 'i', ' ', 't', 'h', 'e', 'r', 'e']).length := by
  constructor
  · have h := (generate_response_prefix_counts "s1" "en"
      ['H', 'i', ' ', 't', 'h', 'e', 'r', 'e']).2.2
    have hsub : (generate_response_failing "s1" "en"
        ['H', 'i', ' ', 't', 'h', 'e', 'r', 'e'] 3).countP Ev.isError
        ≤ (generate_response "s1" "en"
            ['H', 'i', ' ', 't', 'h', 'e', 'r', 'e']).countP Ev.isError :=
      (List.take_sublist 3 _).countP_le _
    omega
  · decide

/-- Claim C5 (amended): when the /chat generator fails after emitting `k`
of its events, the observed stream is exactly those `k` events truncated:
no `error` event is ever emitted, and no `session_end` is emitted after
the failure point. -/
theorem C5_midstream_failure_truncates (sid lang : String) (ai : List Char)
    (k : ℕ) (hk : k < (generate_response sid lang ai).length) :
    (generate_response_failing sid lang ai k).countP Ev.isError = 0
      ∧ (generate_response_failing sid lang ai k).countP Ev.isSessionEnd = 0 := by
  obtain ⟨hpre_end, _, herr⟩ := generate_response_prefix_counts sid lang ai
  constructor
  · have hsub : (generate_response_failing sid lang ai k).countP Ev.isError
        ≤ (generate_response sid lang ai).countP Ev.isError :=
      (List.take_sublist k _).countP_le _
    omega
  · have hsplit := generate_response_split sid lang ai
    have hlen : (generate_response sid lang ai).length
        = ([Ev.session_start sid lang,
            Ev.thinking "Analyzing your healthcare query..."]
            ++ (partialChunks (pySplit ai) chunk_size).map
                (fun e => Ev.partial_response e.1 e.2)
            ++ [Ev.final_response ai (95 / 100) lang "healthcare"]).length
          + 1 := by
      rw [hsplit]
      simp
    have hkle : k ≤ ([Ev.session_start sid lang,
        Ev.thinking "Analyzing your healthcare query..."]
        ++ (partialChunks (pySplit ai) chunk_size).map
            (fun e => Ev.partial_response e.1 e.2)
        ++ [Ev.final_response ai (95 / 100) lang "healthcare"]).length := by
      omega
    have htake : generate_response_failing sid lang ai k
        = ([Ev.session_start sid lang,
            Ev.thinking "Analyzing your healthcare query..."]
            ++ (partialChunks (pySplit ai) chunk_size).map
                (fun e => Ev.partial_response e.1 e.2)
            ++ [Ev.final_response ai (95 / 100) lang "healthcare"]).take k := by
      rw [generate_response_failing, hsplit,
        List.take_append_eq_append_take, Nat.sub_eq_zero_of_le hkle]
      simp
    rw [htake]
    have hsub : (([Ev.session_start sid lang,
        Ev.thinking "Analyzing your healthcare query..."]
        ++ (partialChunks (pySplit ai) chunk_size).map
            (fun e => Ev.partial_response e.1 e.2)
        ++ [Ev.final_response ai (95 / 100) lang "healthcare"]).take k).countP
          Ev.isSessionEnd
        ≤ ([Ev.session_start sid lang,
            Ev.thinking "Analyzing your healthcare query..."]
            ++ (partialChunks (pySplit ai) chunk_size).map
                (fun e => Ev.partial_response e.1 e.2)
            ++ [Ev.final_response ai (95 / 100) lang "healthcare"]).countP
              Ev.isSessionEnd :=
      (List.take_sublist k _).countP_le _
    omega

/-- Witness for the amended C5 at a concrete two-word session truncated
after 3 events. -/
theorem C5_midstream_failure_truncates_witness :
    (generate_response_failing "s1" "en"
        ['H', 'i', ' ', 't', 'h', 'e', 'r', 'e'] 3).countP Ev.isError = 0
      ∧ (generate_response_failing "s1" "en"
          ['H', 'i', ' ', 't', 'h', 'e', 'r', 'e'] 3).countP
            Ev.isSessionEnd = 0 :=
  C5_midstream_failure_truncates "s1" "en"
    ['H', 'i', ' ', 't', 'h', 'e', 'r', 'e'] 3 (by decide)

/-- Claim C2: validating a token issued for a subject returns that
subject; validation fails — with the single Unauthenticated kind, `none` —
for an expired token, a token signed with a different secret, a tampered
token, a malformed token, and a token without a subject claim. -/
theorem C2_token_round_trip
    (secret secret2 : String) (now now2 ttl : ℚ) (subject : String)
    (httl : 0 < ttl)
    (hsec : secret2 ≠ secret)
    (hexp : now + ttl ≤ now2) :
    decode_token secret now
        (.token (create_access_token secret now ttl subject))
      = some (subject, [])
      ∧ decode_token secret now2
          (.token (create_access_token secret now ttl subject)) = none
      ∧ decode_token secret2 now
          (.token (create_access_token secret now ttl subject)) = none
      ∧ (∀ t : SignedToken, t.sigPayload ≠ t.payload →
          decode_token secret now (.token t) = none)
      ∧ decode_token secret now .malformed = none
      ∧ (∀ p : Payload, p.sub = none →
          decode_token secret now (.token (jwtEncode secret p)) = none) := by
  refine ⟨?_, ?_, ?_, ?_, rfl, ?_⟩
  · have hlt : now < now + ttl := by linarith
    simp [decode_token, jwtDecode, create_access_token, jwtEncode, hlt]
  · have hge : ¬ (now2 < now + ttl) := not_lt.mpr hexp
    simp [decode_token, jwtDecode, create_access_token, jwtEncode, hge]
  · have hne : ¬ ((secret : String) = secret2) := fun h => hsec h.symm
    simp [decode_token, jwtDecode, create_access_token, jwtEncode, hne]
  · intro t htamper
    simp [decode_token, jwtDecode, htamper]
  · intro p hsub
    by_cases hlive : now < p.exp
    · simp [decode_token, jwtDecode, jwtEncode, hlive, hsub]
    · simp [decode_token, jwtDecode, jwtEncode, hlive]

/-- Witness for C2 with secret "s", a second secret "x", issue time 0,
TTL 60 and validation of the expired token at time 100. -/
theorem C2_token_round_trip_witness :
    decode_token "s" 0 (.token (create_access_token "s" 0 60 "svc"))
      = some ("svc", [])
      ∧ decode_token "s" 100 (.token (create_access_token "s" 0 60 "svc")) = none
      ∧ decode_token "x" 0 (.token (create_access_token "s" 0 60 "svc")) = none
      ∧ (∀ t : SignedToken, t.sigPayload ≠ t.payload →
          decode_token "s" 0 (.token t) = none)
      ∧ decode_token "s" 0 .malformed = none
      ∧ (∀ p : Payload, p.sub = none →
          decode_token "s" 0 (.token (jwtEncode "s" p)) = none) :=
  C2_token_round_trip "s" "x" 0 100 60 "svc"
    (by norm_num) (by decide) (by norm_num)

/-- Claim C6: the WebSocket admission check runs once before the
connection is registered; a missing or invalid token closes the socket
with code 4401 and a rate-limit rejection with code 4429, two distinct
non-1000 codes; in both failure cases the handler returns before
`manager.connect`, so the connection is never registered and no further
reads or writes happen. -/
theorem C6_websocket_admission
    (env : Env) (st : String → List ℚ) (now : ℚ) (host : Option String)
    (conns : List ℕ) (ws : ℕ) :
    secure_websocket env st now none none host = (.closed 4401, st)
      ∧ (∀ w h, decode_token env.secret now w = none →
          secure_websocket env st now (some w) h host = (.closed 4401, st))
      ∧ (∀ w, decode_token env.secret now w = none →
          secure_websocket env st now none (some w) host = (.closed 4401, st))
      ∧ (∀ w sub scopes, decode_token env.secret now w = some (sub, scopes) →
          (hitState env.limit env.window st
            (if sub = "" then host.getD "anonymous" else sub) now).1 = false →
          secure_websocket env st now (some w) none host
            = (.closed 4429,
               (hitState env.limit env.window st
                 (if sub = "" then host.getD "anonymous" else sub) now).2))
      ∧ (∀ w sub scopes, decode_token env.secret now w = some (sub, scopes) →
          (hitState env.limit env.window st
            (if sub = "" then host.getD "anonymous" else sub) now).1 = true →
          secure_websocket env st now (some w) none host
            = (.accepted sub scopes,
               (hitState env.limit env.window st
                 (if sub = "" then host.getD "anonymous" else sub) now).2))
      ∧ ((4401 : ℕ) ≠ 4429 ∧ (4401 : ℕ) ≠ 1000 ∧ (4429 : ℕ) ≠ 1000)
      ∧ (∀ code, websocket_chat_connections (.closed code) conns ws = conns)
      ∧ (∀ sub scopes,
          websocket_chat_connections (.accepted sub scopes) conns ws
            = conns ++ [ws]) := by
  refine ⟨?_, ?_, ?_, ?_, ?_, ?_, ?_, ?_⟩
  · rfl
  · intro w h hdec
    simp [secure_websocket, Option.orElse, hdec]
  · intro w hdec
    simp [secure_websocket, Option.orElse, hdec]
  · intro w sub scopes hdec hrl
    simp [secure_websocket, Option.orElse, hdec, hrl]
  · intro w sub scopes hdec hok
    simp [secure_websocket, Option.orElse, hdec, hok]
  · exact ⟨by norm_num, by norm_num, by norm_num⟩
  · intro code; rfl
  · intro sub scopes; rfl

/-- Claim C7 is false on the code: `disconnect` is
`active_connections.remove(websocket)`, and a second call in succession
for the same connection raises `ValueError` instead of being a no-op.
Concretely, after disconnecting connection 0 from the registry `[0]` the
registry is `[]`, and the second `disconnect` errors. -/
theorem C7_unregister_counterexample :
    disconnect [0] 0 = some [] ∧ disconnect [] 0 = none := by
  decide

/-- Claim C7 (amended): `unregister` removes the first occurrence of a
present connection, but it is not idempotent: for a duplicate-free
registry a second call in succession for the same connection raises
`ValueError` (`none`) rather than leaving the registry unchanged. -/
theorem C7_unregister_second_call_raises
    (conns : List ℕ) (ws : ℕ) (hmem : ws ∈ conns) (hnd : conns.Nodup) :
    disconnect conns ws = some (conns.erase ws)
      ∧ disconnect (conns.erase ws) ws = none := by
  constructor
  · simp [disconnect, hmem]
  · have hnot : ws ∉ conns.erase ws := hnd.not_mem_erase
    simp [disconnect, hnot]

/-- Witness for the amended C7 at the one-element registry `[5]`. -/
theorem C7_unregister_second_call_raises_witness :
    disconnect [5] 5 = some ([5].erase 5)
      ∧ disconnect ([5].erase 5) 5 = none :=
  C7_unregister_second_call_raises [5] 5 (by decide) (by decide)

/-- Claim C8 is false on the code: `broadcast` awaits `send_text` on each
registered connection with no exception handling, so one failing
connection prevents delivery to the others.  Concretely, with registry
`[0, 1]` where sending to 0 raises and sending to 1 would succeed, the
loop aborts and connection 1 receives nothing. -/
theorem C8_broadcast_counterexample :
    broadcast (fun c => decide (c ≠ 0)) [0, 1] = ([], false)
      ∧ (fun c => decide (c ≠ 0)) 1 = true := by
  decide

/-- Claim C8 (amended): `broadcast` delivers the payload to the registered
connections in order only up to (and excluding) the first connection whose
send raises; the exception propagates and every connection after the
failing one receives nothing. -/
theorem C8_broadcast_stops_at_first_failure
    (send : ℕ → Bool) (pre : List ℕ) (bad : ℕ) (post : List ℕ)
    (hpre : ∀ c ∈ pre, send c = true) (hbad : send bad = false) :
    broadcast send (pre ++ bad :: post) = (pre, false) := by
  induction pre with
  | nil => simp [broadcast, hbad]
  | cons c cs ih =>
    have hc : send c = true := hpre c (List.mem_cons_self c cs)
    have ihc := ih (fun x hx => hpre x (List.mem_cons_of_mem c hx))
    simp [broadcast, hc, ihc]

/-- Witness for the amended C8: connections 0 and 1 send fine, 2 raises,
3 never receives the payload. -/
theorem C8_broadcast_stops_at_first_failure_witness :
    broadcast (fun c => decide (c ≠ 2)) ([0, 1] ++ 2 :: [3]) = ([0, 1], false) :=
  C8_broadcast_stops_at_first_failure (fun c => decide (c ≠ 2)) [0, 1] 2 [3]
    (by decide) (by decide)

/-- Claim C10: `POST /auth/token` authenticates before consulting the rate
limiter: a request with bad credentials gets the 400 error with the
limiter state untouched (no quota consumed), while a request with correct
credentials whose username bucket is at the limit gets the RateLimited
error and no token is issued; with quota available a token for the
username is issued. -/
theorem C10_login_authenticates_before_rate_limit
    (env : Env) (st : String → List ℚ) (now : ℚ)
    (username password : String) (clientHost : Option String) :
    (authenticate_user env username password = false →
        login_for_access_token env st now username password clientHost
          = (.badCredentials, st))
      ∧ (authenticate_user env username password = true →
          (hitState env.limit env.window st
            (if username = "" then clientHost.getD "anonymous" else username)
            now).1 = false →
          login_for_access_token env st now username password clientHost
            = (.rateLimited,
               (hitState env.limit env.window st
                 (if username = "" then clientHost.getD "anonymous" else username)
                 now).2))
      ∧ (authenticate_user env username password = true →
          (hitState env.limit env.window st
            (if username = "" then clientHost.getD "anonymous" else username)
            now).1 = true →
          login_for_access_token env st now username password clientHost
            = (.ok (create_access_token env.secret now env.ttl username),
               (hitState env.limit env.window st
                 (if username = "" then clientHost.getD "anonymous" else username)
                 now).2)) := by
  refine ⟨?_, ?_, ?_⟩
  · intro hbad
    simp [login_for_access_token, hbad]
  · intro hgood hrl
    simp [login_for_access_token, hgood, hrl]
  · intro hgood hok
    simp [login_for_access_token, hgood, hok]

/-- Witness for C9: three concurrent calls with limit 2 give exactly two
successes and one failure. -/
theorem C9_concurrent_admission_witness :
    hitSeq 2 10 [] [(1 : ℚ), 2, 3]
        = (List.replicate 2 true ++ List.replicate ([(1 : ℚ), 2, 3].length - 2) false,
           [(1 : ℚ), 2, 3].take 2)
      ∧ (hitSeq 2 10 [] [(1 : ℚ), 2, 3]).1.count true = 2
      ∧ (hitSeq 2 10 [] [(1 : ℚ), 2, 3]).1.count false = [(1 : ℚ), 2, 3].length - 2 :=
  C9_concurrent_admission 2 10 [1, 2, 3] (by norm_num [List.forall_mem_cons]) (by norm_num)

end NphiesAI
